import Mathlib

/-!
Verification development for the `quest` CLI's request-template resolution
engine (src/quest.rs, src/main.rs).

The Rust source is shallowly embedded below.  Conventions:
- The process environment is a function `String → Option String`
  (`std::env::var` returning `Err(VarError::NotPresent)` corresponds to `none`).
- Rust panics (`unwrap` / `expect` / `panic!`) and `Err` results are both
  modelled as `Except.error` with a constructor naming the failure site.
- `std::collections::HashMap<String, String>` is modelled by its lookup
  function (`HMap`), built by folding inserts in list order, so a later
  entry with the same key overwrites an earlier one — exactly the
  semantics of `collect::<HashMap<_,_>>()`.  Its iteration order is
  unspecified in Rust and is not modelled.
- `http::HeaderMap` is modelled as an association list with
  `insert`-replaces-existing-value semantics (`hdrInsert`); only lookup and
  multiplicity of names are relied upon, not iteration order.
- Rust method names that would collide with Lean field names get a suffix
  (`Quest::vars` → `Quest.varsMap` for the collected map, `Quest.varsList`
  for the resolved list it collects; `Quest::url` → `Quest.urlR`;
  `ConfiguredValue::value` → `ConfiguredValue.value?`).
-/

deriving instance DecidableEq for Except

namespace QuestApp

/-- The process environment: variable name to value.  `none` models
`VarError::NotPresent`. -/
abbrev Env := String → Option String

def envEmpty : Env := fun _ => none

/-- Failure modes of the engine.  Each constructor names a concrete failure
site of the Rust code (a panic or an `Err` return). -/
inductive Err where
  /-- `std::env::var` returned `Err` inside `ConfiguredValue::value`
  (surfaced by `.expect("Missing environment variable")` at the merge sites). -/
  | missingEnvironmentVariable
  /-- the `panic!("One of \x60value\x60 or \x60valueFrom\x60 must be configured.")`
  in `ConfiguredValue::value`. -/
  | misconfiguredValue
  /-- `envsubst::substitute` returned `Err` (a context key or value contains
  one of `$`, `\x7b`, `\x7d`), surfaced by `.unwrap()` in `Quest::url`. -/
  | substError
  /-- `HeaderName::from_lowercase(...).unwrap()` panicked in `Quest::headers`. -/
  | invalidHeaderName
  /-- `HeaderValue::from_str(...).unwrap()` panicked in `Quest::headers`. -/
  | invalidHeaderValue
  /-- `Url::parse_with_params(&url, params).unwrap()` panicked in
  `Quest::request` (the substituted URL does not parse). -/
  | invalidUrl
  /-- `self.methods.get(method).unwrap()` panicked in the `Method::Post` arm
  of `Quest::request`. -/
  | missingMethodEntry
  deriving DecidableEq, Repr

/-- `serde_json::Value`.  Numbers are simplified to `Int`; no claim under
verification inspects a numeric payload. -/
inductive JVal where
  | null
  | bool (b : Bool)
  | num (n : Int)
  | str (s : String)
  | arr (xs : List JVal)
  | obj (fs : List (String × JVal))

/-- `struct ValueFrom { env: String }` -/
structure ValueFrom where
  env : String
  deriving DecidableEq, Repr

/-- `struct ConfiguredValue { key, value: Option<String>, valueFrom: Option<ValueFrom> }`
(the serde field `from` is renamed `valueFrom`, as in the YAML surface). -/
structure ConfiguredValue where
  key : String
  value : Option String
  valueFrom : Option ValueFrom
  deriving DecidableEq, Repr

/-- `ConfiguredValue::value`: the literal if present, else the named
environment variable, else the `panic!` (modelled `misconfiguredValue`). -/
def ConfiguredValue.value? (cv : ConfiguredValue) (env : Env) : Except Err String :=
  match cv.value with
  | some v => .ok v
  | none =>
    match cv.valueFrom with
    | some f =>
      match env f.env with
      | some v => .ok v
      | none => .error .missingEnvironmentVariable
    | none => .error .misconfiguredValue

/-- `enum Method { Get, Post }` -/
inductive Method where
  | get
  | post
  deriving DecidableEq, Repr

/-- `struct Send { vars, headers, params, body: Option<String>, json: Option<Value> }` -/
structure Send where
  vars : List ConfiguredValue := []
  headers : List ConfiguredValue := []
  params : List ConfiguredValue := []
  body : Option String := none
  json : Option JVal := none

/-- `struct Quest { name, url, vars, headers, params, methods: BTreeMap<Method, Send> }`.
The `BTreeMap` is modelled by its lookup function. -/
structure Quest where
  name : String
  url : String
  vars : List ConfiguredValue := []
  headers : List ConfiguredValue := []
  params : List ConfiguredValue := []
  methods : Method → Option Send

/-- `struct QuestFile { quests: Vec<Quest> }` -/
structure QuestFile where
  quests : List Quest

/-- `QuestFile::retrieve`: `self.quests.into_iter().find(|q| q.name.eq(name))`. -/
def QuestFile.retrieve (f : QuestFile) (name : String) : Option Quest :=
  f.quests.find? (fun q => q.name == name)

/-! ## HashMap model -/

/-- The value of the last pair of `l` whose key is `k` (later entries take
precedence over earlier ones). -/
def lastLookup (l : List (String × String)) (k : String) : Option String :=
  match l with
  | [] => none
  | p :: rest => (lastLookup rest k).or (if p.1 = k then some p.2 else none)

/-- `std::collections::HashMap<String, String>`, modelled by its lookup. -/
abbrev HMap := String → Option String

def hmEmpty : HMap := fun _ => none

/-- `HashMap::insert`: overwrites any previous value at the key. -/
def hmInsert (m : HMap) (k v : String) : HMap :=
  fun k2 => if k2 = k then some v else m k2

/-- `collect::<HashMap<String, String>>()` over pairs, in list order. -/
def hmOfList (l : List (String × String)) : HMap :=
  l.foldl (fun m p => hmInsert m p.1 p.2) hmEmpty

/-- The keys of `l` in first-seen order (used to enumerate the entry set of
the collected `HashMap`; the real iteration order is unspecified, and no
theorem below depends on this choice). -/
def seenKeys (l : List (String × String)) : List String :=
  l.foldl (fun ks p => if ks.contains p.1 then ks else ks ++ [p.1]) []

/-- The entry set of the `HashMap` collected from `l`: one pair per distinct
key, carrying the last value written for that key. -/
def dedupLast (l : List (String × String)) : List (String × String) :=
  (seenKeys l).filterMap (fun k => (lastLookup l k).map (fun v => (k, v)))

/-! ## Layer resolution (`Quest::vars` / `Quest::params` / `Quest::headers`)

Each of the three Rust methods clones the quest-level list, extends it with
the per-method `Send` list when `methods.get(method)` hits, resolves every
`ConfiguredValue` (panicking on failure — modelled as error propagation),
extends with the caller-supplied `extra` pairs, and collects into a map. -/

def resolveEntries (l : List ConfiguredValue) (env : Env) : Except Err (List (String × String)) :=
  match l with
  | [] => .ok []
  | cv :: rest =>
    match cv.value? env with
    | .error e => .error e
    | .ok v =>
      match resolveEntries rest env with
      | .error e => .error e
      | .ok tail => .ok ((cv.key, v) :: tail)

/-- The per-method sub-layer contribution to `vars` (empty when the method
has no entry in `methods`, mirroring the `if let Some(send)` guard). -/
def Quest.methodVars (q : Quest) (m : Method) : List ConfiguredValue :=
  match q.methods m with
  | some s => s.vars
  | none => []

def Quest.methodParams (q : Quest) (m : Method) : List ConfiguredValue :=
  match q.methods m with
  | some s => s.params
  | none => []

def Quest.methodHeaders (q : Quest) (m : Method) : List ConfiguredValue :=
  match q.methods m with
  | some s => s.headers
  | none => []

/-- The concatenated, resolved entry list of `Quest::vars` just before the
final `collect` (quest-level list, then per-method list, then CLI extras). -/
def Quest.varsList (q : Quest) (m : Method) (extra : List (String × String)) (env : Env) :
    Except Err (List (String × String)) :=
  match resolveEntries (q.vars ++ q.methodVars m) env with
  | .error e => .error e
  | .ok l => .ok (l ++ extra)

/-- `Quest::vars`: the collected `HashMap`. -/
def Quest.varsMap (q : Quest) (m : Method) (extra : List (String × String)) (env : Env) :
    Except Err HMap :=
  match q.varsList m extra env with
  | .error e => .error e
  | .ok l => .ok (hmOfList l)

/-- The concatenated, resolved entry list of `Quest::params` before `collect`. -/
def Quest.paramsList (q : Quest) (m : Method) (extra : List (String × String)) (env : Env) :
    Except Err (List (String × String)) :=
  match resolveEntries (q.params ++ q.methodParams m) env with
  | .error e => .error e
  | .ok l => .ok (l ++ extra)

/-- `Quest::params`: the collected `HashMap`. -/
def Quest.paramsMap (q : Quest) (m : Method) (extra : List (String × String)) (env : Env) :
    Except Err HMap :=
  match q.paramsList m extra env with
  | .error e => .error e
  | .ok l => .ok (hmOfList l)

/-! ## Headers (`Quest::headers`) -/

/-- `String::to_lowercase` (per-char; identical on ASCII, which is all the
header names exercised here use). -/
def strToLower (s : String) : String := String.mk (s.toList.map Char.toLower)

/-- A character `HeaderName::from_lowercase` accepts: lowercase ASCII
letters, digits, and the token characters `! # $ % & ' * + - . ^ _ | ~`
and backquote (codes listed numerically). -/
def isLowerHeaderNameChar (c : Char) : Bool :=
  decide (97 ≤ c.toNat ∧ c.toNat ≤ 122) ||
  decide (48 ≤ c.toNat ∧ c.toNat ≤ 57) ||
  [33, 35, 36, 37, 38, 39, 42, 43, 45, 46, 94, 95, 96, 124, 126].contains c.toNat

/-- Validity for `HeaderName::from_lowercase(k.to_lowercase().as_bytes())`. -/
def headerNameOk (s : String) : Bool :=
  decide (0 < s.length) && s.toList.all isLowerHeaderNameChar

/-- Validity for `HeaderValue::from_str`: tab or any visible character
(char-level model of the byte-level check; identical on ASCII). -/
def headerValueOk (s : String) : Bool :=
  s.toList.all (fun c => decide (c.toNat = 9) || (decide (32 ≤ c.toNat) && decide (c.toNat ≠ 127)))

/-- One entry of the lower-casing map in `Quest::headers`:
`(HeaderName::from_lowercase(k.to_lowercase()).unwrap(), HeaderValue::from_str(v).unwrap())`. -/
def lowerEntry (p : String × String) : Except Err (String × String) :=
  if headerNameOk (strToLower p.1) then
    if headerValueOk p.2 then .ok (strToLower p.1, p.2)
    else .error .invalidHeaderValue
  else .error .invalidHeaderName

def lowerEntries (l : List (String × String)) : Except Err (List (String × String)) :=
  match l with
  | [] => .ok []
  | p :: rest =>
    match lowerEntry p with
    | .error e => .error e
    | .ok q =>
      match lowerEntries rest with
      | .error e => .error e
      | .ok tail => .ok (q :: tail)

/-- Pure image of a successful `lowerEntries` pass. -/
def lowerPairs (l : List (String × String)) : List (String × String) :=
  l.map (fun p => (strToLower p.1, p.2))

/-- `http::HeaderMap`, as an association list of (lowercased name, value). -/
abbrev HdrMap := List (String × String)

/-- `HeaderMap::get`: the (single) value stored for a name. -/
def hdrGet (m : HdrMap) (k : String) : Option String :=
  match m with
  | [] => none
  | p :: rest => if p.1 = k then some p.2 else hdrGet rest k

def hdrHasKey (m : HdrMap) (k : String) : Bool :=
  match m with
  | [] => false
  | p :: rest => if p.1 = k then true else hdrHasKey rest k

/-- `HeaderMap::insert`: replaces the value of an existing name, else appends. -/
def hdrInsert (m : HdrMap) (k v : String) : HdrMap :=
  if hdrHasKey m k then m.map (fun p => if p.1 = k then (k, v) else p)
  else m ++ [(k, v)]

/-- `collect::<HeaderMap>()`: folds `insert` over the pairs in list order. -/
def hdrCollect (l : List (String × String)) : HdrMap :=
  l.foldl (fun m p => hdrInsert m p.1 p.2) []

/-- `Quest::headers`: merge the three layers, resolve, lowercase every name,
and collect into a `HeaderMap`. -/
def Quest.headersMap (q : Quest) (m : Method) (extra : List (String × String)) (env : Env) :
    Except Err HdrMap :=
  match resolveEntries (q.headers ++ q.methodHeaders m) env with
  | .error e => .error e
  | .ok l =>
    match lowerEntries (l ++ extra) with
    | .error e => .error e
    | .ok lowered => .ok (hdrCollect lowered)

/-! ## URL substitution (`Quest::url` via the `envsubst` crate)

`envsubst::substitute(template, &vars)` iterates the context; for each
`(key, value)` it validates that neither contains `$`, `\x7b` or `\x7d`
(else `Err`), then replaces every occurrence of the text `"$\x7b" + key + "\x7d"`
in the output by `value` (`str::replace`).  Placeholders with no matching
key are left verbatim; unmatched placeholders are NOT an error.  The model
iterates the collected map's entry set in first-seen-key order
(`dedupLast`); the real `HashMap` order is unspecified, and since validated
values cannot contain `$`/braces, distinct keys' replacements do not
interact, so the facts proved below do not depend on the order chosen. -/

def envsubstClean (s : String) : Bool :=
  s.toList.all (fun c => !(c.toNat == 36) && !(c.toNat == 123) && !(c.toNat == 125))

/-- Does `pat` occur at the head of `s`? (`List` analogue of `str` matching.) -/
def isLeading : List Char → List Char → Bool
  | [], _ => true
  | _ :: _, [] => false
  | a :: ps, b :: ss => a == b && isLeading ps ss

/-- Worker for `replaceAll`, structurally recursive on a fuel bound.  Every
step consumes at least one character of `s` and exactly one unit of fuel, so
with initial fuel `s.length` the `0` case is only reached at `s = []`, where
returning `s` is exact. -/
def replaceAllAux (pat rep : List Char) : Nat → List Char → List Char
  | 0, s => s
  | _ + 1, [] => []
  | fuel + 1, c :: rest =>
    if pat ≠ [] ∧ isLeading pat (c :: rest) then
      rep ++ replaceAllAux pat rep fuel (rest.drop (pat.length - 1))
    else
      c :: replaceAllAux pat rep fuel rest

/-- `str::replace`: replace every non-overlapping occurrence of `pat` in `s`
by `rep`, scanning left to right.  (`pat` is never empty at call sites —
it always starts with `$`.) -/
def replaceAll (pat rep s : List Char) : List Char :=
  replaceAllAux pat rep s.length s

/-- `envsubst::substitute`. -/
def substituteVars (template : String) (vars : List (String × String)) : Except Err String :=
  vars.foldl
    (fun acc p =>
      match acc with
      | .error e => .error e
      | .ok out =>
        if envsubstClean p.1 && envsubstClean p.2 then
          .ok (String.mk (replaceAll ("$\x7b" ++ p.1 ++ "\x7d").toList p.2.toList out.toList))
        else .error .substError)
    (.ok template)

/-- `Quest::url`: `envsubst::substitute(self.url.clone(), &self.vars(method, extra)).unwrap()`. -/
def Quest.urlR (q : Quest) (m : Method) (extraVars : List (String × String)) (env : Env) :
    Except Err String :=
  match q.varsList m extraVars env with
  | .error e => .error e
  | .ok l => substituteVars q.url (dedupLast l)

/-! ## URL parsing (`Url::parse_with_params`, the `url` crate)

`Quest::request` (quest.rs:148) runs `Url::parse_with_params(&url, params)`
and unwraps it before dispatching on the method, so an unparseable
substituted URL panics for every method.  The crate implements WHATWG URL
parsing; this model captures it at the granularity the claims need:
- an input with no leading scheme (an ASCII letter, then letters, digits,
  `+`, `-` or `.`, then `:`) fails — the crate's `RelativeUrlWithoutBase`,
  since `parse_with_params` is given no base URL;
- a "special"-scheme URL (`http`, `https`, `ws`, `wss`, `ftp`) whose
  authority (after skipping leading slashes and backslashes, as WHATWG
  does) is empty fails — the crate's `EmptyHost`;
- every other input is treated as parsing.
Finer WHATWG failure modes (forbidden host characters, invalid ports, bad
IPv6 literals) and input trimming are not modelled; the concrete URLs used
in the theorems below are ones on which this model and the crate agree. -/

def isSchemeChar (c : Char) : Bool :=
  c.isAlpha || c.isDigit || c == '+' || c == '-' || c == '.'

/-- Split off `scheme ":"` (scheme lowercased): `none` when the input has no
valid scheme. -/
def schemeSplitAux : List Char → List Char → Option (List Char × List Char)
  | [], _ => none
  | c :: rest, acc =>
    if c == ':' then some (acc.reverse, rest)
    else if isSchemeChar c then schemeSplitAux rest (c.toLower :: acc)
    else none

def splitScheme : List Char → Option (List Char × List Char)
  | [] => none
  | c :: rest => if c.isAlpha then schemeSplitAux rest [c.toLower] else none

/-- The WHATWG "special" schemes for which an empty host is a parse error
(`file` is also special but permits an empty host). -/
def hostRequiredScheme (sch : List Char) : Bool :=
  decide (sch = "http".toList) || decide (sch = "https".toList) ||
  decide (sch = "ws".toList) || decide (sch = "wss".toList) ||
  decide (sch = "ftp".toList)

/-- Model of `Url::parse` success (see the section comment above). -/
def urlParseOk (s : String) : Bool :=
  match splitScheme s.toList with
  | none => false
  | some (sch, rest) =>
    if hostRequiredScheme sch then
      let afterSlashes := rest.dropWhile (fun c => c == '/' || c == '\\')
      let host := afterSlashes.takeWhile (fun c => !(c == '/' || c == '\\' || c == '?' || c == '#'))
      !host.isEmpty
    else true

/-! ## Request building (`Quest::request`) -/

/-- The body attached to a `reqwest::RequestBuilder`.  `RequestBuilder::json`
sets the body to the JSON serialization of the value; the payload is kept
unserialized here. -/
inductive Body where
  | raw (s : String)
  | jsonOf (v : JVal)

/-- The observable content of the `RequestBuilder` that `Quest::request`
returns.  `url` is the substituted URL (its parse success or failure is
modelled by `urlParseOk`; the normalization and percent-encoding the `url`
crate applies to the parsed URL and the appended query parameters are not,
so `url` and `params` are kept separately).  `defaultHeaders` is the merged
header map installed on the client; `reqContentType` is the Content-Type
header set directly on the request by `RequestBuilder::json` (it takes
precedence over a default header of the same name when the request is
sent). -/
structure ResolvedRequest where
  method : Method
  url : String
  params : HMap
  defaultHeaders : HdrMap
  body : Option Body
  reqContentType : Option String

/-- `Quest::request`: resolve the URL, params and headers, build the client,
run `Url::parse_with_params(&url, params).unwrap()` (panic — `invalidUrl` —
when the substituted URL does not parse), then dispatch on the method.
`Get` attaches nothing.  `Post` unwraps `methods.get(Post)` (panic —
`missingMethodEntry` — when absent), then sets the raw body if declared,
then — overwriting it — the JSON body if declared; `RequestBuilder::json`
also sets Content-Type to `application/json` (the request's own header set
is empty at that point, so the insert is unconditional). -/
def Quest.request (q : Quest) (m : Method)
    (vars params headers : List (String × String)) (env : Env) :
    Except Err ResolvedRequest :=
  match q.urlR m vars env with
  | .error e => .error e
  | .ok url =>
    match q.paramsList m params env with
    | .error e => .error e
    | .ok ps =>
      match q.headersMap m headers env with
      | .error e => .error e
      | .ok hs =>
        if urlParseOk url then
          match m with
          | .get =>
            .ok { method := .get, url := url, params := hmOfList ps, defaultHeaders := hs,
                  body := none, reqContentType := none }
          | .post =>
            match q.methods .post with
            | none => .error .missingMethodEntry
            | some send =>
              let afterBody : Option Body :=
                match send.body with
                | some b => some (.raw b)
                | none => none
              match send.json with
              | some j =>
                .ok { method := .post, url := url, params := hmOfList ps, defaultHeaders := hs,
                      body := some (.jsonOf j), reqContentType := some "application/json" }
              | none =>
                .ok { method := .post, url := url, params := hmOfList ps, defaultHeaders := hs,
                      body := afterBody, reqContentType := none }
        else .error .invalidUrl

/-! ## The `main.rs` lineage

`main.rs` belongs to the repository's other lineage: it reads `quest.method`,
`quest.json` and `quest.body` directly off the quest (no per-method map).
That `Quest` shape is not present in `src/quest.rs`. -/

/-- Modelled from the spec: the single-method quest shape that
`QuestCli::run` (src/main.rs) reads — one `method`, an optional structured
`json` payload and an optional raw `body` string (§6: "`json` (arbitrary
structured payload) and `body` (raw string)").  Only the fields
`QuestCli::run`'s body-selection step touches are included. -/
structure SQuest where
  method : Method
  json : Option JVal
  body : Option String

/-- The body-selection step of `QuestCli::run` (src/main.rs lines 84-92),
applied unconditionally, whatever `quest.method` is: first, if `json` is
declared, set the body to it and set the `Content-Type: application/json`
header; then, if a raw `body` is declared, set the body to it (overwriting
the JSON body).  Returns (final body, Content-Type header value). -/
def mainBodySelect (q : SQuest) : Option Body × Option String :=
  let afterJson : Option Body × Option String :=
    match q.json with
    | some j => (some (.jsonOf j), some "application/json")
    | none => (none, none)
  match q.body with
  | some b => (some (.raw b), afterJson.2)
  | none => afterJson

/-! ## Lemmas: last-write-wins lookup -/

theorem or_none_eq (o : Option String) : o.or none = o := by cases o <;> rfl

theorem lastLookup_append (a b : List (String × String)) (k : String) :
    lastLookup (a ++ b) k = (lastLookup b k).or (lastLookup a k) := by
  induction a with
  | nil => simp [lastLookup, or_none_eq]
  | cons p a ih =>
    show (lastLookup (a ++ b) k).or (if p.1 = k then some p.2 else none)
        = (lastLookup b k).or ((lastLookup a k).or (if p.1 = k then some p.2 else none))
    rw [ih]
    cases lastLookup b k <;> rfl

theorem hmFold_apply (l : List (String × String)) (m : HMap) (k : String) :
    l.foldl (fun m p => hmInsert m p.1 p.2) m k = (lastLookup l k).or (m k) := by
  induction l generalizing m with
  | nil => rfl
  | cons p l ih =>
    show List.foldl (fun m p => hmInsert m p.1 p.2) (hmInsert m p.1 p.2) l k
        = ((lastLookup l k).or (if p.1 = k then some p.2 else none)).or (m k)
    rw [ih]
    cases lastLookup l k with
    | some v => rfl
    | none =>
      show hmInsert m p.1 p.2 k = (if p.1 = k then some p.2 else none).or (m k)
      by_cases hp : p.1 = k
      · subst hp; simp [hmInsert]
      · simp [hmInsert, hp, Ne.symm hp]

/-- Looking up the collected `HashMap` returns the value of the last entry
written for the key. -/
theorem hmOfList_apply (l : List (String × String)) (k : String) :
    hmOfList l k = lastLookup l k := by
  have h := hmFold_apply l hmEmpty k
  simpa [hmOfList, hmEmpty, or_none_eq] using h

/-! ## Lemmas: layer resolution -/

theorem resolveEntries_append (a b : List ConfiguredValue) (env : Env)
    (la lb : List (String × String))
    (ha : resolveEntries a env = .ok la) (hb : resolveEntries b env = .ok lb) :
    resolveEntries (a ++ b) env = .ok (la ++ lb) := by
  induction a generalizing la with
  | nil =>
    simp only [resolveEntries] at ha
    cases ha
    simpa using hb
  | cons cv a ih =>
    simp only [resolveEntries] at ha
    cases hv : cv.value? env with
    | error e => rw [hv] at ha; exact Except.noConfusion ha
    | ok v =>
      rw [hv] at ha
      cases hr : resolveEntries a env with
      | error e => rw [hr] at ha; exact Except.noConfusion ha
      | ok tail =>
        rw [hr] at ha
        cases ha
        show resolveEntries (cv :: (a ++ b)) env = Except.ok ((cv.key, v) :: (tail ++ lb))
        simp only [resolveEntries, hv, List.append_eq, ih tail hr]

/-! ## Lemmas: header lower-casing and `HeaderMap` -/

theorem lowerEntry_ok (p q : String × String) (h : lowerEntry p = .ok q) :
    q = (strToLower p.1, p.2) := by
  unfold lowerEntry at h
  split at h
  · split at h
    · exact (Except.ok.inj h).symm
    · exact Except.noConfusion h
  · exact Except.noConfusion h

theorem lowerEntries_ok_eq (l l2 : List (String × String))
    (h : lowerEntries l = .ok l2) : l2 = lowerPairs l := by
  induction l generalizing l2 with
  | nil => simp only [lowerEntries] at h; cases h; rfl
  | cons p l ih =>
    simp only [lowerEntries] at h
    cases hp : lowerEntry p with
    | error e => rw [hp] at h; exact Except.noConfusion h
    | ok q =>
      rw [hp] at h
      cases hl : lowerEntries l with
      | error e => rw [hl] at h; exact Except.noConfusion h
      | ok tail =>
        rw [hl] at h
        cases h
        simp [lowerPairs, lowerEntry_ok p q hp, ih tail hl]

theorem hdrGet_append_of_not_has (m : HdrMap) (k v k2 : String)
    (h : hdrHasKey m k = false) :
    hdrGet (m ++ [(k, v)]) k2 = if k2 = k then some v else hdrGet m k2 := by
  induction m with
  | nil =>
    by_cases h2 : k2 = k
    · subst h2; simp [hdrGet]
    · simp [hdrGet, h2, Ne.symm h2]
  | cons p m ih =>
    by_cases hp : p.1 = k
    · simp [hdrHasKey, hp] at h
    · have h' : hdrHasKey m k = false := by simpa [hdrHasKey, hp] using h
      by_cases h2 : k2 = k
      · subst h2
        have hp2 : p.1 ≠ k2 := hp
        simp [hdrGet, hp2, ih h']
      · by_cases h3 : p.1 = k2
        · simp [hdrGet, h3, h2]
        · simp [hdrGet, h3, h2, ih h']

theorem hdrGet_map_replace_ne (m : HdrMap) (k v k2 : String) (hne : k2 ≠ k) :
    hdrGet (m.map (fun p => if p.1 = k then (k, v) else p)) k2 = hdrGet m k2 := by
  induction m with
  | nil => rfl
  | cons p m ih =>
    by_cases hp : p.1 = k
    · have : p.1 ≠ k2 := by rw [hp]; exact Ne.symm hne
      simp [hdrGet, hp, Ne.symm hne, this, ih]
    · by_cases h3 : p.1 = k2
      · simp [hdrGet, hp, h3, hne]
      · simp [hdrGet, hp, h3, ih]

theorem hdrGet_map_replace_has (m : HdrMap) (k v : String) (h : hdrHasKey m k = true) :
    hdrGet (m.map (fun p => if p.1 = k then (k, v) else p)) k = some v := by
  induction m with
  | nil => simp [hdrHasKey] at h
  | cons p m ih =>
    by_cases hp : p.1 = k
    · simp [hdrGet, hp]
    · have h' : hdrHasKey m k = true := by simpa [hdrHasKey, hp] using h
      simp [hdrGet, hp, ih h']

/-- `HeaderMap::insert` semantics at the lookup level. -/
theorem hdrGet_insert (m : HdrMap) (k v k2 : String) :
    hdrGet (hdrInsert m k v) k2 = if k2 = k then some v else hdrGet m k2 := by
  cases hb : hdrHasKey m k with
  | false =>
    simp only [hdrInsert, hb, Bool.false_eq_true, if_false]
    exact hdrGet_append_of_not_has m k v k2 hb
  | true =>
    simp only [hdrInsert, hb, if_true]
    by_cases h2 : k2 = k
    · rw [if_pos h2, h2]
      exact hdrGet_map_replace_has m k v hb
    · rw [if_neg h2]
      exact hdrGet_map_replace_ne m k v k2 h2

theorem hdrFold_get (l : List (String × String)) (m : HdrMap) (k : String) :
    hdrGet (l.foldl (fun m p => hdrInsert m p.1 p.2) m) k
      = (lastLookup l k).or (hdrGet m k) := by
  induction l generalizing m with
  | nil => rfl
  | cons p l ih =>
    show hdrGet (List.foldl (fun m p => hdrInsert m p.1 p.2) (hdrInsert m p.1 p.2) l) k
        = ((lastLookup l k).or (if p.1 = k then some p.2 else none)).or (hdrGet m k)
    rw [ih, hdrGet_insert]
    cases lastLookup l k with
    | some v => rfl
    | none =>
      show (if k = p.1 then some p.2 else hdrGet m k)
          = (if p.1 = k then some p.2 else none).or (hdrGet m k)
      by_cases hp : p.1 = k
      · subst hp; simp
      · simp [hp, Ne.symm hp]

/-- Looking up the collected `HeaderMap` returns the value of the last entry
written for the (lowercased) name. -/
theorem hdrCollect_get (l : List (String × String)) (k : String) :
    hdrGet (hdrCollect l) k = lastLookup l k := by
  have h := hdrFold_get l [] k
  simpa [hdrCollect, hdrGet, or_none_eq] using h

/-- Only one entry per name survives `collect::<HeaderMap>()`: inserting an
existing name replaces its value without growing the map. -/
theorem hdrInsert_count (m : HdrMap) (k v : String) (h : hdrHasKey m k = true) :
    (hdrInsert m k v).length = m.length := by
  simp [hdrInsert, h]

/-! ## Lemmas: substitution -/

theorem isLeading_append_self (l t : List Char) : isLeading l (l ++ t) = true := by
  induction l with
  | nil => rfl
  | cons c l ih => simp [isLeading, ih]

/-- The scan of `str::replace` passes unchanged over text containing no `$`
when the pattern starts with `$`. -/
theorem replaceAllAux_pass (pat' rep pre s : List Char) (fuel : Nat)
    (hpre : pre.all (fun c => !(c == '$')) = true) :
    replaceAllAux ('$' :: pat') rep (pre.length + fuel) (pre ++ s)
      = pre ++ replaceAllAux ('$' :: pat') rep fuel s := by
  induction pre with
  | nil => simp
  | cons c pre ih =>
    rw [List.all_cons, Bool.and_eq_true, Bool.not_eq_true'] at hpre
    obtain ⟨h1, hrest⟩ := hpre
    have hc : ('$' == c) = false := beq_eq_false_iff_ne.mpr (Ne.symm (ne_of_beq_false h1))
    have hlen : (c :: pre).length + fuel = (pre.length + fuel) + 1 := by
      simp only [List.length_cons]
      omega
    rw [hlen]
    show replaceAllAux ('$' :: pat') rep ((pre.length + fuel) + 1) (c :: (pre ++ s)) = _
    simp only [replaceAllAux]
    have hno : ¬(('$' :: pat') ≠ [] ∧ isLeading ('$' :: pat') (c :: (pre ++ s)) = true) := by
      intro hcon
      have h2 := hcon.2
      simp [isLeading, hc] at h2
    rw [if_neg hno, ih hrest]
    rfl

/-- The scan of `str::replace` at an occurrence of the pattern emits the
replacement and continues after the occurrence (which is not rescanned). -/
theorem replaceAllAux_consume (c : Char) (pat' rep tail : List Char) (fuel : Nat) :
    replaceAllAux (c :: pat') rep (fuel + 1) ((c :: pat') ++ tail)
      = rep ++ replaceAllAux (c :: pat') rep fuel tail := by
  show replaceAllAux (c :: pat') rep (fuel + 1) (c :: (pat' ++ tail)) = _
  simp only [replaceAllAux]
  rw [if_pos ⟨List.cons_ne_nil c pat', isLeading_append_self (c :: pat') tail⟩]
  have hlen : (c :: pat').length - 1 = pat'.length := by simp
  rw [hlen, List.drop_left]

/-- `str::replace` leaves a `$`-free string unchanged when the pattern
starts with `$` (whatever the fuel). -/
theorem replaceAllAux_no_dollar (pat' rep : List Char) (fuel : Nat) (s : List Char)
    (hs : s.all (fun c => !(c == '$')) = true) :
    replaceAllAux ('$' :: pat') rep fuel s = s := by
  induction fuel generalizing s with
  | zero => rfl
  | succ fuel ih =>
    cases s with
    | nil => rfl
    | cons c rest =>
      rw [List.all_cons, Bool.and_eq_true, Bool.not_eq_true'] at hs
      obtain ⟨h1, hrest⟩ := hs
      have hc : ('$' == c) = false := beq_eq_false_iff_ne.mpr (Ne.symm (ne_of_beq_false h1))
      simp only [replaceAllAux]
      have hno : ¬(('$' :: pat') ≠ [] ∧ isLeading ('$' :: pat') (c :: rest) = true) := by
        intro hcon
        have h2 := hcon.2
        simp [isLeading, hc] at h2
      rw [if_neg hno, ih rest hrest]

/-- `str::replace` on a placeholder embedded in `$`-free surrounding text
replaces exactly the placeholder. -/
theorem replaceAll_embedded (pat' rep pre post : List Char)
    (hpre : pre.all (fun c => !(c == '$')) = true)
    (hpost : post.all (fun c => !(c == '$')) = true) :
    replaceAll ('$' :: pat') rep (pre ++ ('$' :: pat') ++ post)
      = pre ++ rep ++ post := by
  unfold replaceAll
  have hlen : (pre ++ ('$' :: pat') ++ post).length
      = pre.length + ((pat'.length + post.length) + 1) := by
    simp only [List.length_append, List.length_cons]
    omega
  have hassoc : pre ++ ('$' :: pat') ++ post = pre ++ (('$' :: pat') ++ post) := by
    simp [List.append_assoc]
  rw [hlen, hassoc]
  rw [replaceAllAux_pass pat' rep pre (('$' :: pat') ++ post) _ hpre]
  rw [replaceAllAux_consume '$' pat' rep post _]
  rw [replaceAllAux_no_dollar pat' rep _ post hpost]
  simp [List.append_assoc]

/-- `envsubst::substitute` with a (validated) binding for `n` on a template
that embeds the placeholder for `n` in `$`-free surrounding text replaces
the placeholder by the bound value and leaves the surroundings intact. -/
theorem substituteVars_embedded (pre post n v : String)
    (hpre : pre.toList.all (fun c => !(c == '$')) = true)
    (hpost : post.toList.all (fun c => !(c == '$')) = true)
    (hn : envsubstClean n = true) (hv : envsubstClean v = true) :
    substituteVars (pre ++ ("$\x7b" ++ n ++ "\x7d") ++ post) [(n, v)]
      = .ok (pre ++ v ++ post) := by
  unfold substituteVars
  simp only [List.foldl_cons, List.foldl_nil, hn, hv, Bool.and_self, if_true]
  congr 1
  have hpat : ("$\x7b" ++ n ++ "\x7d").toList = '$' :: ('\x7b' :: (n.toList ++ ['\x7d'])) := by
    show (("$\x7b" ++ n) ++ "\x7d").data = _
    rw [String.data_append, String.data_append]
    show (['$', '\x7b'] ++ n.data) ++ ['\x7d'] = _
    simp
  have htpl : (pre ++ ("$\x7b" ++ n ++ "\x7d") ++ post).toList
      = pre.toList ++ ('$' :: ('\x7b' :: (n.toList ++ ['\x7d']))) ++ post.toList := by
    show ((pre ++ ("$\x7b" ++ n ++ "\x7d")) ++ post).data = _
    rw [String.data_append, String.data_append]
    rw [show ("$\x7b" ++ n ++ "\x7d").data = '$' :: ('\x7b' :: (n.data ++ ['\x7d'])) from hpat]
    rfl
  rw [hpat, htpl, replaceAll_embedded _ _ _ _ hpre hpost]
  cases pre with
  | mk lpre =>
    cases v with
    | mk lv =>
      cases post with
      | mk lpost => rfl

/-! ## Spec-side lookup (for the refinement claim C7) -/

/-- The earliest quest in the list whose name equals `n` exactly (the spec's
description of lookup: "returns the first match"). -/
def firstMatch : List Quest → String → Option Quest
  | [], _ => none
  | q :: rest, n => if q.name = n then some q else firstMatch rest n

theorem find?_eq_firstMatch (l : List Quest) (n : String) :
    l.find? (fun q => q.name == n) = firstMatch l n := by
  induction l with
  | nil => rfl
  | cons q l ih =>
    by_cases h : q.name = n
    · simp [List.find?, firstMatch, h]
    · have hb : (q.name == n) = false := beq_eq_false_iff_ne.mpr h
      simp [List.find?, firstMatch, h, hb, ih]

/-! ## Claims -/

/-- C1: last-write-wins merging.  For each of the vars, params and headers
merges, the collected mapping assigns every key the value of the latest
contributing layer, the three layers being concatenated in the order
quest-level list → per-method (`Send`) list → CLI extras: the CLI value if
the key occurs there, else the per-method-layer value, else the quest-level
value.  (For headers the match is on the lowercased names.) -/
theorem c1_last_write_wins
    (q : Quest) (m : Method) (extraV extraP extraH : List (String × String)) (env : Env)
    (qv mv qp mp qh mh : List (String × String))
    (hqv : resolveEntries q.vars env = .ok qv)
    (hmv : resolveEntries (q.methodVars m) env = .ok mv)
    (hqp : resolveEntries q.params env = .ok qp)
    (hmp : resolveEntries (q.methodParams m) env = .ok mp)
    (hqh : resolveEntries q.headers env = .ok qh)
    (hmh : resolveEntries (q.methodHeaders m) env = .ok mh) :
    (∀ vm, q.varsMap m extraV env = .ok vm →
       ∀ k, vm k = (lastLookup extraV k).or ((lastLookup mv k).or (lastLookup qv k)))
  ∧ (∀ pm, q.paramsMap m extraP env = .ok pm →
       ∀ k, pm k = (lastLookup extraP k).or ((lastLookup mp k).or (lastLookup qp k)))
  ∧ (∀ hm2, q.headersMap m extraH env = .ok hm2 →
       ∀ k, hdrGet hm2 k = (lastLookup (lowerPairs extraH) k).or
         ((lastLookup (lowerPairs mh) k).or (lastLookup (lowerPairs qh) k))) := by
  refine ⟨?_, ?_, ?_⟩
  · intro vm hvm k
    have hcat := resolveEntries_append _ _ env _ _ hqv hmv
    simp only [Quest.varsMap, Quest.varsList, hcat] at hvm
    cases hvm
    rw [hmOfList_apply, lastLookup_append, lastLookup_append]
  · intro pm hpm k
    have hcat := resolveEntries_append _ _ env _ _ hqp hmp
    simp only [Quest.paramsMap, Quest.paramsList, hcat] at hpm
    cases hpm
    rw [hmOfList_apply, lastLookup_append, lastLookup_append]
  · intro hm2 hhm k
    have hcat := resolveEntries_append _ _ env _ _ hqh hmh
    simp only [Quest.headersMap, hcat] at hhm
    cases hle : lowerEntries ((qh ++ mh) ++ extraH) with
    | error e =>
      simp only [hle] at hhm
      exact Except.noConfusion hhm
    | ok lowered =>
      simp only [hle] at hhm
      cases hhm
      have hlow := lowerEntries_ok_eq _ _ hle
      subst hlow
      rw [hdrCollect_get]
      simp only [lowerPairs, List.map_append]
      rw [lastLookup_append, lastLookup_append]

def send1 : Send := { vars := [⟨"a", some "9", none⟩] }

def qc1 : Quest :=
  { name := "q1", url := "u",
    vars := [⟨"a", some "1", none⟩, ⟨"b", some "2", none⟩],
    methods := fun m => match m with | .get => some send1 | .post => none }

/-- C1 witness: concrete three-layer merge where the CLI layer overrides the
per-method layer, which overrides the quest-level layer. -/
theorem c1_witness :
    resolveEntries qc1.vars envEmpty = .ok [("a", "1"), ("b", "2")]
  ∧ resolveEntries (qc1.methodVars .get) envEmpty = .ok [("a", "9")]
  ∧ (∀ vm, qc1.varsMap .get [("a", "3")] envEmpty = .ok vm →
      ∀ k, vm k = (lastLookup [("a", "3")] k).or
        ((lastLookup [("a", "9")] k).or (lastLookup [("a", "1"), ("b", "2")] k)))
  ∧ (∀ vm, qc1.varsMap .get [("a", "3")] envEmpty = .ok vm → vm "a" = some "3") := by
  refine ⟨rfl, rfl, ?_, ?_⟩
  · exact (c1_last_write_wins qc1 .get [("a", "3")] [] [] envEmpty
      [("a", "1"), ("b", "2")] [("a", "9")] [] [] [] [] rfl rfl rfl rfl rfl rfl).1
  · intro vm hvm
    have h := (c1_last_write_wins qc1 .get [("a", "3")] [] [] envEmpty
      [("a", "1"), ("b", "2")] [("a", "9")] [] [] [] [] rfl rfl rfl rfl rfl rfl).1 vm hvm "a"
    rw [h]
    decide

/-- C2 counterexample: a URL whose placeholder has no matching key in the
merged vars resolves successfully with the placeholder left verbatim —
there is no `UnresolvedPlaceholder` failure (and the embedded error type,
which names every failure site of the code, has no such case). -/
theorem c2_counterexample :
    Quest.urlR { name := "q", url := "$\x7bX\x7d", methods := fun _ => none } .get [] envEmpty
      = .ok "$\x7bX\x7d" := rfl

/-- C2 amended: a placeholder for a name bound in the merged vars, embedded
in `$`-free surrounding text, is replaced by the bound value with the
surroundings left intact; and a template over which the merged vars offer
no binding — in particular any unmatched placeholder — is returned verbatim
with resolution succeeding. -/
theorem c2_amended (pre post v : String)
    (hpre : pre.toList.all (fun c => !(c == '$')) = true)
    (hpost : post.toList.all (fun c => !(c == '$')) = true)
    (hv : envsubstClean v = true) :
    (∀ t : String, substituteVars t [] = .ok t)
  ∧ Quest.urlR { name := "q", url := pre ++ "$\x7bX\x7d" ++ post,
                 vars := [⟨"X", some v, none⟩], methods := fun _ => none }
      .get [] envEmpty = .ok (pre ++ v ++ post) := by
  refine ⟨fun t => rfl, ?_⟩
  show substituteVars (pre ++ "$\x7bX\x7d" ++ post) [("X", v)] = .ok (pre ++ v ++ post)
  have h := substituteVars_embedded pre post "X" v hpre hpost (by decide) hv
  have hpat : ("$\x7b" ++ "X" ++ "\x7d") = "$\x7bX\x7d" := rfl
  rw [hpat] at h
  exact h

/-- C2 witness: the spec's end-to-end example — the template
`https://api.example/` followed by the placeholder for `id`-style var `X`
bound to `42` resolves to `https://api.example/42` — and the lone
placeholder with `X = 5` yields `5`. -/
theorem c2_witness :
    envsubstClean "42" = true
  ∧ "https://api.example/".toList.all (fun c => !(c == '$')) = true
  ∧ Quest.urlR { name := "q", url := "https://api.example/" ++ "$\x7bX\x7d" ++ "",
                 vars := [⟨"X", some "42", none⟩], methods := fun _ => none }
      .get [] envEmpty = .ok ("https://api.example/" ++ "42" ++ "")
  ∧ Quest.urlR { name := "q", url := "" ++ "$\x7bX\x7d" ++ "",
                 vars := [⟨"X", some "5", none⟩], methods := fun _ => none }
      .get [] envEmpty = .ok ("" ++ "5" ++ "") :=
  ⟨by decide, by decide,
   (c2_amended "https://api.example/" "" "42" (by decide) (by decide) (by decide)).2,
   (c2_amended "" "" "5" (by decide) (by decide) (by decide)).2⟩

/-- C3: `ConfiguredValue` resolution.  A present literal resolves to itself
whatever the environment; an environment indirection alone resolves to the
variable's value when set and fails with `missingEnvironmentVariable` when
unset; neither present fails with `misconfiguredValue`. -/
theorem c3_configured_value_resolution (k lit n : String) (vf : Option ValueFrom) (env : Env) :
    ConfiguredValue.value? ⟨k, some lit, vf⟩ env = .ok lit
  ∧ ConfiguredValue.value? ⟨k, none, some ⟨n⟩⟩ env
      = (match env n with
         | some v => .ok v
         | none => .error .missingEnvironmentVariable)
  ∧ ConfiguredValue.value? ⟨k, none, none⟩ env = .error .misconfiguredValue := by
  refine ⟨rfl, ?_, rfl⟩
  cases h : env n with
  | some v => simp [ConfiguredValue.value?, h]
  | none => simp [ConfiguredValue.value?, h]

def qc5 (n1 v1 : String) : Quest :=
  { name := "q5", url := "u", headers := [⟨n1, some v1, none⟩], methods := fun _ => none }

/-- C5: header names are lowercased and override matching is
case-insensitive: a quest-level header and a CLI header whose names agree
up to case merge into exactly one header, under the lowercased name,
holding the CLI (later layer) value. -/
theorem c5_header_case_insensitive (n1 n2 v1 v2 : String)
    (hn : strToLower n1 = strToLower n2)
    (hname : headerNameOk (strToLower n2) = true)
    (hv1 : headerValueOk v1 = true) (hv2 : headerValueOk v2 = true) :
    Quest.headersMap (qc5 n1 v1) .get [(n2, v2)] envEmpty
      = .ok [(strToLower n2, v2)] := by
  have h1 : lowerEntry (n1, v1) = .ok (strToLower n2, v1) := by
    unfold lowerEntry
    rw [show (n1, v1).1 = n1 from rfl, hn]
    simp [hname, hv1]
  have h2 : lowerEntry (n2, v2) = .ok (strToLower n2, v2) := by
    unfold lowerEntry
    simp [hname, hv2]
  have hres : resolveEntries ((qc5 n1 v1).headers ++ (qc5 n1 v1).methodHeaders .get) envEmpty
      = .ok [(n1, v1)] := rfl
  simp only [Quest.headersMap, hres]
  have hle : lowerEntries ([(n1, v1)] ++ [(n2, v2)])
      = .ok [(strToLower n2, v1), (strToLower n2, v2)] := by
    simp only [List.cons_append, List.nil_append, lowerEntries, h1, h2]
  simp only [hle]
  have hcol : hdrCollect [(strToLower n2, v1), (strToLower n2, v2)] = [(strToLower n2, v2)] := by
    simp [hdrCollect, List.foldl_cons, List.foldl_nil, hdrInsert, hdrHasKey]
  rw [hcol]

/-- C5 witness: the spec's example — quest `Content-Type: application/json`
overridden by CLI `content-type=text/plain` yields the single header
`content-type: text/plain`. -/
theorem c5_witness :
    strToLower "Content-Type" = strToLower "content-type"
  ∧ headerNameOk (strToLower "content-type") = true
  ∧ Quest.headersMap (qc5 "Content-Type" "application/json") .get
      [("content-type", "text/plain")] envEmpty = .ok [("content-type", "text/plain")] := by
  refine ⟨by decide, by decide, ?_⟩
  have h := c5_header_case_insensitive "Content-Type" "content-type" "application/json"
    "text/plain" (by decide) (by decide) (by decide) (by decide)
  have hl : strToLower "content-type" = "content-type" := by decide
  rw [hl] at h
  exact h

/-- C6 counterexample: in the `main.rs` lineage, when a quest declares both
a JSON payload and a raw body, the raw body is attached (it overwrites the
JSON body, which is set first), while the Content-Type header remains
`application/json` — structured JSON does not win there. -/
theorem c6_counterexample :
    (mainBodySelect { method := .post, json := some (.str "J"), body := some "RAW" }).1
      = some (.raw "RAW")
  ∧ (mainBodySelect { method := .post, json := some (.str "J"), body := some "RAW" }).2
      = some "application/json" :=
  ⟨rfl, rfl⟩

/-- C6 amended: in the per-method engine (`Quest::request`, POST arm), once
the merges succeed and the substituted URL parses, body selection is the
claimed three-way priority with structured JSON winning: a declared JSON
payload is attached as the body with Content-Type `application/json` even
when a raw body is also declared; else a declared raw body is attached
verbatim; else no body.  (In the `main.rs` lineage the raw body instead
overwrites the JSON body; see the counterexample.) -/
theorem c6_amended (q : Quest) (send : Send)
    (vars params headers : List (String × String)) (env : Env)
    (u : String) (ps : List (String × String)) (hs : HdrMap)
    (hsend : q.methods .post = some send)
    (hu : q.urlR .post vars env = .ok u)
    (hp : q.paramsList .post params env = .ok ps)
    (hh : q.headersMap .post headers env = .ok hs)
    (hurl : urlParseOk u = true) :
    (q.request .post vars params headers env).isOk = true
  ∧ ∀ r, q.request .post vars params headers env = .ok r →
      ((∀ j, send.json = some j →
          r.body = some (.jsonOf j) ∧ r.reqContentType = some "application/json")
       ∧ (send.json = none → ∀ b, send.body = some b → r.body = some (.raw b))
       ∧ (send.json = none → send.body = none → r.body = none)) := by
  cases hj : send.json with
  | some j =>
    have hreq : q.request .post vars params headers env
        = .ok { method := .post, url := u, params := hmOfList ps, defaultHeaders := hs,
                body := some (.jsonOf j), reqContentType := some "application/json" } := by
      simp only [Quest.request, hu, hp, hh, hurl, if_true, hsend, hj]
    refine ⟨by rw [hreq]; rfl, ?_⟩
    intro r hr
    rw [hreq] at hr
    cases hr
    refine ⟨?_, ?_, ?_⟩
    · intro j2 hj2
      cases hj2
      exact ⟨rfl, rfl⟩
    · intro hn
      exact Option.noConfusion hn
    · intro hn
      exact Option.noConfusion hn
  | none =>
    cases hb : send.body with
    | some b =>
      have hreq : q.request .post vars params headers env
          = .ok { method := .post, url := u, params := hmOfList ps, defaultHeaders := hs,
                  body := some (.raw b), reqContentType := none } := by
        simp only [Quest.request, hu, hp, hh, hurl, if_true, hsend, hj, hb]
      refine ⟨by rw [hreq]; rfl, ?_⟩
      intro r hr
      rw [hreq] at hr
      cases hr
      refine ⟨?_, ?_, ?_⟩
      · intro j2 hj2
        exact Option.noConfusion hj2
      · intro _ b2 hb2
        cases hb2
        rfl
      · intro _ hn
        exact Option.noConfusion hn
    | none =>
      have hreq : q.request .post vars params headers env
          = .ok { method := .post, url := u, params := hmOfList ps, defaultHeaders := hs,
                  body := none, reqContentType := none } := by
        simp only [Quest.request, hu, hp, hh, hurl, if_true, hsend, hj, hb]
      refine ⟨by rw [hreq]; rfl, ?_⟩
      intro r hr
      rw [hreq] at hr
      cases hr
      refine ⟨?_, ?_, ?_⟩
      · intro j2 hj2
        exact Option.noConfusion hj2
      · intro _ b2 hb2
        exact Option.noConfusion hb2
      · intro _ _
        rfl

def send6 : Send := { body := some "RAW", json := some (.str "J") }

def qc6 : Quest :=
  { name := "q6", url := "http://h/",
    methods := fun m => match m with | .post => some send6 | .get => none }

/-- C6 witness: a POST quest declaring both a raw body and a JSON payload,
with a URL that parses, resolves successfully (the theorem then gives that
the JSON payload wins). -/
theorem c6_witness :
    qc6.methods .post = some send6
  ∧ qc6.urlR .post [] envEmpty = .ok "http://h/"
  ∧ qc6.paramsList .post [] envEmpty = .ok []
  ∧ qc6.headersMap .post [] envEmpty = .ok []
  ∧ urlParseOk "http://h/" = true
  ∧ (qc6.request .post [] [] [] envEmpty).isOk = true := by
  refine ⟨rfl, rfl, rfl, rfl, rfl, ?_⟩
  exact (c6_amended qc6 send6 [] [] [] envEmpty "http://h/" [] [] rfl rfl rfl rfl rfl).1

/-- C7: quest lookup is exact-name, first-match: `retrieve` coincides with
the spec-side `firstMatch` (earliest entry whose name equals the requested
name exactly), and returns `none` — the `MissingQuest` outcome — precisely
when no quest in the file bears the requested name. -/
theorem c7_retrieve_first_match (f : QuestFile) (n : String) :
    f.retrieve n = firstMatch f.quests n
  ∧ (f.retrieve n = none ↔ ∀ q ∈ f.quests, q.name ≠ n) := by
  constructor
  · exact find?_eq_firstMatch f.quests n
  · rw [QuestFile.retrieve, List.find?_eq_none]
    constructor
    · intro h q hq
      simpa using h q hq
    · intro h q hq
      simpa using h q hq

def qEmptyM : Quest := { name := "q8", url := "http://h/", methods := fun _ => none }

/-- C8 counterexample: a quest whose `methods` map has no entry for the
requested method `Get` resolves successfully — request resolution does not
fail with any `UnsupportedMethod`-style error (no such error exists in the
code), contradicting the claim that a missing entry always fails. -/
theorem c8_counterexample :
    qEmptyM.methods .get = none
  ∧ (qEmptyM.request .get [] [] [] envEmpty).isOk = true :=
  ⟨rfl, rfl⟩

/-- C8 amended: the engine never pre-validates the method against the
`methods` map.  A missing `Get` entry is tolerated: the per-method
sub-layer is simply absent and resolution succeeds (once the merges succeed
and the substituted URL parses).  A missing `Post` entry makes
`Quest::request` panic (`missingMethodEntry`) — and only after the vars,
URL, params and headers have all been merged and resolved and the URL
parsed. -/
theorem c8_amended (q : Quest) (vars params headers : List (String × String)) (env : Env) :
    (q.methods .post = none →
      ∀ u ps hs, q.urlR .post vars env = .ok u →
        q.paramsList .post params env = .ok ps →
        q.headersMap .post headers env = .ok hs →
        urlParseOk u = true →
        q.request .post vars params headers env = .error .missingMethodEntry)
  ∧ (q.methods .get = none →
      ∀ u ps hs, q.urlR .get vars env = .ok u →
        q.paramsList .get params env = .ok ps →
        q.headersMap .get headers env = .ok hs →
        urlParseOk u = true →
        q.request .get vars params headers env
          = .ok { method := .get, url := u, params := hmOfList ps, defaultHeaders := hs,
                  body := none, reqContentType := none }) := by
  constructor
  · intro hnone u ps hs hu hp hh hurl
    simp only [Quest.request, hu, hp, hh, hurl, if_true, hnone]
  · intro _ u ps hs hu hp hh hurl
    simp only [Quest.request, hu, hp, hh, hurl, if_true]

/-- C8 witness: on a quest with an empty `methods` map and a parseable URL,
POST resolution reaches the panic only after the merges succeed, and GET
resolution succeeds outright. -/
theorem c8_witness :
    qEmptyM.methods .post = none
  ∧ qEmptyM.urlR .post [] envEmpty = .ok "http://h/"
  ∧ urlParseOk "http://h/" = true
  ∧ qEmptyM.request .post [] [] [] envEmpty = .error .missingMethodEntry
  ∧ qEmptyM.request .get [] [] [] envEmpty
      = .ok { method := .get, url := "http://h/", params := hmOfList [], defaultHeaders := [],
              body := none, reqContentType := none } := by
  refine ⟨rfl, rfl, rfl, ?_, ?_⟩
  · exact (c8_amended qEmptyM [] [] [] envEmpty).1 rfl "http://h/" [] [] rfl rfl rfl rfl
  · exact (c8_amended qEmptyM [] [] [] envEmpty).2 rfl "http://h/" [] [] rfl rfl rfl rfl

/-- C9 counterexample: in the `main.rs` lineage the configured JSON payload
is attached regardless of the method — a GET quest with `json` declared
gets a JSON body, contradicting "GET-class requests never carry a body". -/
theorem c9_counterexample :
    (mainBodySelect { method := .get, json := some (.str "J"), body := none }).1
      = some (.jsonOf (.str "J")) := rfl

/-- C9 amended: in the per-method engine (`Quest::request`), a GET request
never carries a body or JSON content — whatever body/JSON the quest
configures — and the configuration is tolerated: resolution succeeds
whenever the merges succeed and the substituted URL parses (an unparseable
URL panics at `Url::parse_with_params` for every method, independently of
any body configuration). -/
theorem c9_amended (q : Quest) (vars params headers : List (String × String)) (env : Env)
    (u : String) (ps : List (String × String)) (hs : HdrMap)
    (hu : q.urlR .get vars env = .ok u)
    (hp : q.paramsList .get params env = .ok ps)
    (hh : q.headersMap .get headers env = .ok hs)
    (hurl : urlParseOk u = true) :
    q.request .get vars params headers env
      = .ok { method := .get, url := u, params := hmOfList ps, defaultHeaders := hs,
              body := none, reqContentType := none } := by
  simp only [Quest.request, hu, hp, hh, hurl, if_true]

def send9 : Send := { body := some "RAW", json := some (.str "J") }

def qc9 : Quest :=
  { name := "q9", url := "http://h/",
    methods := fun m => match m with | .get => some send9 | .post => none }

/-- C9 witness: a GET quest that configures both a raw body and a JSON
payload, with a URL that parses, still resolves to a request with no body
and no content type. -/
theorem c9_witness :
    qc9.methods .get = some send9
  ∧ qc9.urlR .get [] envEmpty = .ok "http://h/"
  ∧ urlParseOk "http://h/" = true
  ∧ qc9.request .get [] [] [] envEmpty
      = .ok { method := .get, url := "http://h/", params := hmOfList [], defaultHeaders := [],
              body := none, reqContentType := none } := by
  refine ⟨rfl, rfl, rfl, ?_⟩
  exact c9_amended qc9 [] [] [] envEmpty "http://h/" [] [] rfl rfl rfl rfl

/-- C10: a `ConfiguredValue` carrying both a literal and an environment
indirection resolves to the literal under every environment — including the
one where the referenced variable is unset — so the environment is never
consulted; and the "exactly one of the two" shape is not structurally
enforced: the type admits such a value. -/
theorem c10_literal_beats_env (k lit n : String) (env : Env) :
    ConfiguredValue.value? ⟨k, some lit, some ⟨n⟩⟩ env = .ok lit
  ∧ ConfiguredValue.value? ⟨k, some lit, some ⟨n⟩⟩ (fun _ => none) = .ok lit :=
  ⟨rfl, rfl⟩

end QuestApp
